import Mathlib

/-!
Shallow embedding of `scrape_year_in_llms.py` (the "Year in LLMs" scraper).

Pure core functions of the script — the Categorizer (`categorize_content`),
the Date Inferrer (`extract_dates`), the Section Extractor
(`extract_headings_and_sections`), the Link Extractor (`extract_links`),
the Event Builder (the section loop in `scrape_year`), the Link Verifier
records (`verify_link` and its capped loop) and the per-year orchestration
of `main` — are translated into executable Lean definitions.  Strings are
treated as sequences of code points, matching Python `str` semantics for
indexing, slicing and length.  Network calls (`requests.get`,
`requests.head`) are abstracted as function parameters, and the
`urllib.parse.urljoin` standard-library collaborator is modelled
explicitly below.
-/

namespace Scraper

/-! ### String primitives mirroring Python `str` operations -/

/-- Python whitespace class for `str.strip` and the regex class `\s`
restricted to its ASCII members (the script only processes ASCII-relevant
patterns). -/
def isPyWs (c : Char) : Bool :=
  c == ' ' || c == '\t' || c == '\n' || c == '\r' || c == '\x0b' || c == '\x0c'

/-- Length of a Python string: number of code points. -/
def pyLen (s : String) : Nat := s.toList.length

/-- Python slice `s[:n]`: the first `n` code points. -/
def pyTake (n : Nat) (s : String) : String := String.mk (s.toList.take n)

/-- Python `str.strip()` (whitespace from both ends). -/
def pyStrip (s : String) : String :=
  String.mk (((s.toList.dropWhile isPyWs).reverse.dropWhile isPyWs).reverse)

/-- Python `str.lower()` (ASCII case mapping; all keywords in the script
are ASCII). -/
def lowerStr (s : String) : String := String.mk (s.toList.map Char.toLower)

/-- Exact prefix test on character lists. -/
def listStarts : List Char → List Char → Bool
  | [], _ => true
  | _ :: _, [] => false
  | p :: ps, c :: cs => p == c && listStarts ps cs

/-- Substring occurrence test on character lists: Python `pat in s`. -/
def listHas (pat : List Char) : List Char → Bool
  | [] => pat.isEmpty
  | c :: cs => listStarts pat (c :: cs) || listHas pat cs

/-- Python `needle in hay` for strings. -/
def containsSub (hay needle : String) : Bool := listHas needle.toList hay.toList

/-- Python `s.startswith(p)`. -/
def pyStartsWith (s p : String) : Bool := listStarts p.toList s.toList

/-- Python `' '.join(parts)`. -/
def joinSpace (parts : List String) : String := String.intercalate " " parts

/-- Python `s.endswith(p)`. -/
def pyEndsWith (s p : String) : Bool := listStarts p.toList.reverse s.toList.reverse

/-! ### Data model -/

/-- A Link record: `{'text': ..., 'url': ...}` as built by `extract_links`. -/
structure Link where
  text : String
  url : String
deriving DecidableEq

/-- A Section record: `{'title': ..., 'level': ..., 'content': [...]}` as
built by `extract_headings_and_sections`. -/
structure Section where
  title : String
  level : Nat
  content : List String
deriving DecidableEq

/-- An Event record as built by the section loop in `scrape_year`.  The
`date` field holds the result of `extract_dates`, whose declared Python
type is `str | None`. -/
structure Event where
  title : String
  date : Option String
  categories : List String
  description : String
  links : List Link
deriving DecidableEq

/-- A sibling node of the parsed article body, as seen by
`extract_headings_and_sections`: a tag name together with the node's text
(read through `get_text(strip=True)`, modelled by `pyStrip`). -/
structure Node where
  tag : String
  text : String
deriving DecidableEq

/-- An anchor element carrying an `href` attribute, as selected by
`find_all('a', href=True)` in `extract_links`; `text` is the raw visible
text before stripping. -/
structure Anchor where
  href : String
  text : String
deriving DecidableEq

/-! ### Categorizer: `categorize_content` -/

def model_keywords : List String :=
  ["gpt", "claude", "llama", "gemini", "mistral", "qwen", "deepseek", "model", "parameter"]

def tool_keywords : List String :=
  ["tool", "cli", "api", "code", "app", "plugin", "extension", "library", "sdk"]

def concept_keywords : List String :=
  ["concept", "term", "coined", "definition", "paradigm", "pattern", "methodology"]

def pricing_keywords : List String :=
  ["$", "price", "cost", "subscription", "revenue", "million", "billion"]

def company_keywords : List String :=
  ["openai", "anthropic", "google", "meta", "microsoft", "alibaba", "amazon"]

def research_keywords : List String :=
  ["research", "paper", "study", "benchmark", "leaderboard", "competition", "olympiad"]

/-- Python `any(kw in text_lower for kw in kws)`. -/
def anyKw (textLower : String) (kws : List String) : Bool :=
  kws.any fun kw => containsSub textLower kw

/-- All six keyword lists of `categorize_content`, in evaluation order. -/
def all_keywords : List String :=
  model_keywords ++ tool_keywords ++ concept_keywords ++ pricing_keywords ++
    company_keywords ++ research_keywords

/-- The fixed evaluation order of the six categories. -/
def categoryOrder : List String :=
  ["models", "tools", "concepts", "pricing", "companies", "research"]

/-- The `categories` list accumulated by the six keyword predicates of
`categorize_content`, in their fixed evaluation order. -/
def categoriesRaw (text_lower : String) : List String :=
  (if anyKw text_lower model_keywords then ["models"] else []) ++
  ((if anyKw text_lower tool_keywords then ["tools"] else []) ++
  ((if anyKw text_lower concept_keywords then ["concepts"] else []) ++
  ((if anyKw text_lower pricing_keywords then ["pricing"] else []) ++
  ((if anyKw text_lower company_keywords then ["companies"] else []) ++
  (if anyKw text_lower research_keywords then ["research"] else [])))))

/-- Translation of `categorize_content`: six keyword predicates append
their label in a fixed order; the default `['concepts']` is returned when
the accumulated list is empty
(`return categories if categories else ['concepts']`). -/
def categorize_content (text : String) : List String :=
  let categories := categoriesRaw (lowerStr text)
  if categories.isEmpty then ["concepts"] else categories

/-! ### Date Inferrer: `extract_dates`

The regex is
`(January|...|December)\s*(\d{1,2})?,?\s*(\d{4})?` searched with
`re.IGNORECASE`.  Every component after the month alternation is optional,
so the leftmost position at which a month name matches yields the overall
match with purely greedy consumption (no backtracking can ever be
required).  The translation below implements exactly that: leftmost
case-insensitive month match, then greedy `\s*`, greedy optional one-or-two
digit day, optional comma, greedy `\s*`, optional four-digit year. -/

def monthNames : List String :=
  ["January", "February", "March", "April", "May", "June",
   "July", "August", "September", "October", "November", "December"]

/-- Case-insensitive prefix test (regex alternative matching under
`re.IGNORECASE`). -/
def ciStarts : List Char → List Char → Bool
  | [], _ => true
  | _ :: _, [] => false
  | p :: ps, c :: cs => (Char.toLower p == Char.toLower c) && ciStarts ps cs

/-- Match the month alternation at the head of `s`; returns the length of
the matched month name. -/
def monthAt (s : List Char) : Option Nat :=
  monthNames.findSome? fun m => if ciStarts m.toList s then some m.toList.length else none

/-- Leftmost month match (`re.search` scanning positions left to right).
Returns the matched text (original casing, as `match.group(1)` does) and
the remaining characters. -/
def findMonthFrom : List Char → Option (List Char × List Char)
  | [] => none
  | c :: cs =>
    match monthAt (c :: cs) with
    | some n => some ((c :: cs).take n, (c :: cs).drop n)
    | none => findMonthFrom cs

/-- Greedy `(\d{1,2})?`: prefer two digits, else one, else nothing.
Returns the captured day (if any) and the remaining characters. -/
def dayParse : List Char → Option (List Char) × List Char
  | [] => (none, [])
  | [a] => if a.isDigit then (some [a], []) else (none, [a])
  | a :: b :: t =>
    if a.isDigit && b.isDigit then (some [a, b], t)
    else if a.isDigit then (some [a], b :: t)
    else (none, a :: b :: t)

/-- Greedy `,?`. -/
def dropComma : List Char → List Char
  | [] => []
  | c :: t => if c == ',' then t else c :: t

/-- Greedy `(\d{4})?`: capture exactly four digits when the next four
characters are all digits. -/
def yearParse : List Char → Option (List Char)
  | a :: b :: c :: d :: _ =>
    if a.isDigit && b.isDigit && c.isDigit && d.isDigit then some [a, b, c, d] else none
  | _ => none

/-- Translation of `extract_dates`.  The Python declared result type is
`str | None`; both return statements produce a string, which the
`Option String` result type makes visible. -/
def extract_dates (text : String) (year : Nat) : Option String :=
  match findMonthFrom text.toList with
  | none => some (toString year)
  | some (monthChars, rest) =>
    let afterWs := rest.dropWhile isPyWs
    let dp := dayParse afterWs
    let afterComma := dropComma dp.2
    let afterWs2 := afterComma.dropWhile isPyWs
    let yr := yearParse afterWs2
    let month := String.mk monthChars
    let found_year :=
      match yr with
      | some y => String.mk y
      | none => toString year
    match dp.1 with
    | some d => some (month ++ " " ++ String.mk d ++ ", " ++ found_year)
    | none => some (month ++ " " ++ found_year)

/-! ### Section Extractor: `extract_headings_and_sections`

The article body is modelled as the list of sibling nodes of the main
content container.  `find_all(['h2', 'h3'])` visits the headings in
document order; `find_next_siblings()` then walks the nodes after each
heading, breaking at the next `h2`/`h3` and collecting the stripped text
of each `p` node. -/

/-- A node at which the sibling scan of the source breaks:
`sibling.name in ['h2', 'h3']`. -/
def isHeading (n : Node) : Bool := n.tag == "h2" || n.tag == "h3"

/-- Python `int(heading.name[1])` for tags `h2`/`h3`. -/
def tagLevel (tag : String) : Nat :=
  match tag.toList with
  | _ :: c :: _ => c.toNat - Char.toNat '0'
  | _ => 0

/-- Content scan after a heading: append stripped `p` texts, break at the
next `h2`/`h3`. -/
def sectionContent : List Node → List String
  | [] => []
  | n :: rest =>
    if isHeading n then []
    else if n.tag == "p" then pyStrip n.text :: sectionContent rest
    else sectionContent rest

/-- Translation of `extract_headings_and_sections` over the sibling list. -/
def extract_headings_and_sections : List Node → List Section
  | [] => []
  | n :: rest =>
    if isHeading n then
      { title := pyStrip n.text, level := tagLevel n.tag,
        content := sectionContent rest } :: extract_headings_and_sections rest
    else extract_headings_and_sections rest

/-- Specification-side restatement of the Section Extractor, for the
refinement comparison: one Section per rank-2-or-3 heading in document
order, whose content is the stripped text of the paragraph siblings that
follow it up to (excluding) the next rank-2-or-3 heading. -/
def sectionsSpec (doc : List Node) : List Section :=
  doc.tails.filterMap fun t =>
    match t with
    | [] => none
    | n :: rest =>
      if isHeading n then
        some { title := pyStrip n.text, level := tagLevel n.tag,
               content := ((rest.takeWhile fun m => !isHeading m).filter
                 fun m => m.tag == "p").map fun m => pyStrip m.text }
      else none

/-- Specification-side case-insensitive occurrence test: some position of
`s` starts a case-insensitive match of `pat` (used to state "no month
name occurs in the text"). -/
def ciOccursL (pat : List Char) : List Char → Bool
  | [] => ciStarts pat []
  | c :: cs => ciStarts pat (c :: cs) || ciOccursL pat cs

/-! ### URL resolution: `urllib.parse.urljoin`

Modelled from the spec: the source calls the standard-library collaborator
`urllib.parse.urljoin` (not part of the repository) to "resolve the target
to an absolute URL ... per standard URL-resolution rules: relative path,
protocol-relative, and fragment references all resolve against source
URL".  The definitions below follow CPython's `urllib.parse`
(`urlsplit`-style parsing into scheme, netloc, path, query and fragment,
and RFC 3986 reference resolution with dot-segment removal); the rarely
used `params` component (a `;` suffix of the last path segment) is folded
into the path. -/

/-- Characters allowed in a URL scheme (`scheme_chars` in CPython). -/
def isSchemeChar (c : Char) : Bool :=
  c.isAlpha || c.isDigit || c == '+' || c == '-' || c == '.'

/-- Scan for the scheme separator `:`; `acc` holds the characters read so
far, in reverse. -/
def schemeSplitAux (acc : List Char) : List Char → Option (List Char × List Char)
  | [] => none
  | c :: cs =>
    if c == ':' then some (acc.reverse, cs)
    else if isSchemeChar c then schemeSplitAux (c :: acc) cs
    else none

/-- Scheme detection of `urlsplit`: a leading alphabetic character, then
scheme characters up to a `:`.  Returns the lower-cased scheme and the
remainder after the colon. -/
def splitScheme (url : String) : Option (String × String) :=
  match url.toList with
  | [] => none
  | c :: cs =>
    if c.isAlpha then
      match schemeSplitAux [c] cs with
      | some (sch, rest) => some (String.mk (sch.map Char.toLower), String.mk rest)
      | none => none
    else none

/-- A URL has an explicit scheme. -/
def hasScheme (url : String) : Bool := (splitScheme url).isSome

/-- Parsed URL components (`urlsplit` result, without `params`). -/
structure UrlParts where
  scheme : String
  netloc : String
  path : String
  query : String
  fragment : String
deriving DecidableEq

/-- Take the network-location part: characters up to the first of
`/`, `?` or `#`. -/
def takeNetloc : List Char → List Char × List Char
  | [] => ([], [])
  | c :: cs =>
    if c == '/' || c == '?' || c == '#' then ([], c :: cs)
    else
      let p := takeNetloc cs
      (c :: p.1, p.2)

/-- Split at the first occurrence of `sep` (the separator is dropped);
when `sep` does not occur the second component is empty. -/
def breakAtChar (sep : Char) : List Char → List Char × List Char
  | [] => ([], [])
  | c :: cs =>
    if c == sep then ([], cs)
    else
      let p := breakAtChar sep cs
      (c :: p.1, p.2)

/-- Parse everything after the scheme: optional `//netloc`, then the
fragment split, then the query split. -/
def parseRest (l : List Char) : String × String × String × String :=
  let nl :=
    match l with
    | '/' :: '/' :: t => takeNetloc t
    | _ => ([], l)
  let fr := breakAtChar '#' nl.2
  let pq := breakAtChar '?' fr.1
  (String.mk nl.1, String.mk pq.1, String.mk pq.2, String.mk fr.2)

/-- CPython `urlparse(url, defaultScheme)`: the default scheme is used
when the URL carries none. -/
def urlparse (url : String) (defaultScheme : String) : UrlParts :=
  match splitScheme url with
  | some (s, r) =>
    let p := parseRest r.toList
    { scheme := s, netloc := p.1, path := p.2.1, query := p.2.2.1, fragment := p.2.2.2 }
  | none =>
    let p := parseRest url.toList
    { scheme := defaultScheme, netloc := p.1, path := p.2.1, query := p.2.2.1,
      fragment := p.2.2.2 }

/-- Schemes that support relative resolution (`uses_relative`). -/
def uses_relative : List String :=
  ["", "ftp", "http", "gopher", "nntp", "imap", "wais", "file", "https", "shttp",
   "mms", "prospero", "rtsp", "rtspu", "sftp", "svn", "svn+ssh", "ws", "wss"]

/-- Schemes that use a network location (`uses_netloc`). -/
def uses_netloc : List String :=
  ["", "ftp", "http", "gopher", "nntp", "telnet", "imap", "wais", "file", "mms",
   "https", "shttp", "snews", "prospero", "rtsp", "rtspu", "rsync", "svn",
   "svn+ssh", "sftp", "nfs", "git", "git+ssh", "ws", "wss", "itms-services"]

/-- CPython `urlunsplit`: reassemble components into a URL string. -/
def urlunsplit (p : UrlParts) : String :=
  let url := p.path
  let url :=
    if p.netloc ≠ "" ∨ pyStartsWith url "//" = true then
      "//" ++ p.netloc ++ (if url ≠ "" ∧ pyStartsWith url "/" = false then "/" ++ url else url)
    else url
  let url := if p.scheme ≠ "" then p.scheme ++ ":" ++ url else url
  let url := if p.query ≠ "" then url ++ "?" ++ p.query else url
  if p.fragment ≠ "" then url ++ "#" ++ p.fragment else url

/-- Python `str.split(sep)` for a one-character separator (as used on
`'/'` by the path merge of `urljoin`). -/
def splitOnChar (sep : Char) : List Char → List String
  | [] => [""]
  | c :: cs =>
    let r := splitOnChar sep cs
    if c == sep then "" :: r
    else
      match r with
      | [] => [String.mk [c]]
      | s :: rest => String.mk (c :: s.toList) :: rest

/-- Python `sep.join(parts)` for a one-character separator. -/
def joinChar (sep : Char) : List String → String
  | [] => ""
  | [s] => s
  | s :: rest => s ++ String.mk [sep] ++ joinChar sep rest

/-- Slice assignment `segments[1:-1] = filter(None, segments[1:-1])`:
drop empty strings strictly between the first and last element. -/
def filterMiddleAux : List String → List String
  | [] => []
  | [x] => [x]
  | x :: y :: t =>
    if x = "" then filterMiddleAux (y :: t) else x :: filterMiddleAux (y :: t)

def filterMiddle : List String → List String
  | [] => []
  | x :: rest => x :: filterMiddleAux rest

/-- CPython `urljoin(base, url)`. -/
def urljoin (base url : String) : String :=
  if base = "" then url
  else if url = "" then base
  else
    let b := urlparse base ""
    let u := urlparse url b.scheme
    if u.scheme ≠ b.scheme ∨ uses_relative.contains u.scheme = false then url
    else if uses_netloc.contains u.scheme = true ∧ u.netloc ≠ "" then urlunsplit u
    else
      let netloc := if uses_netloc.contains u.scheme = true then b.netloc else u.netloc
      if u.path = "" then
        urlunsplit { scheme := u.scheme, netloc := netloc, path := b.path,
                     query := if u.query = "" then b.query else u.query,
                     fragment := u.fragment }
      else
        let base_parts0 := splitOnChar '/' b.path.toList
        let base_parts :=
          if base_parts0.getLast? ≠ some "" then base_parts0.dropLast else base_parts0
        let segments :=
          if pyStartsWith u.path "/" = true then splitOnChar '/' u.path.toList
          else filterMiddle (base_parts ++ splitOnChar '/' u.path.toList)
        let resolved := segments.foldl
          (fun acc seg =>
            if seg = ".." then acc.dropLast
            else if seg = "." then acc
            else acc ++ [seg]) ([] : List String)
        let resolved :=
          if segments.getLast? = some ".." ∨ segments.getLast? = some "." then
            resolved ++ [""]
          else resolved
        let joined := joinChar '/' resolved
        let path := if joined = "" then "/" else joined
        urlunsplit { scheme := u.scheme, netloc := netloc, path := path,
                     query := u.query, fragment := u.fragment }

/-! ### Link Extractor: `extract_links` -/

/-- Resolution step of `extract_links`: targets already carrying an
`http://` or `https://` prefix are kept, everything else is joined
against the page URL. -/
def resolveHref (base_url href : String) : String :=
  if pyStartsWith href "http://" || pyStartsWith href "https://" then href
  else urljoin base_url href

/-- Translation of `extract_links`: walk the anchors of the article in
document order, resolve each target, strip the visible text, and keep the
anchor when both are non-empty (`if text and href`). -/
def extract_links (anchors : List Anchor) (base_url : String) : List Link :=
  match anchors with
  | [] => []
  | a :: rest =>
    let href := resolveHref base_url a.href
    let text := pyStrip a.text
    if !text.isEmpty && !href.isEmpty then
      { text := text, url := href } :: extract_links rest base_url
    else extract_links rest base_url

/-! ### Event Builder: the section loop of `scrape_year` -/

/-- The link-association predicate of the section loop:
`link['text'].lower() in content_text.lower() or link['text'] in
section['title']`. -/
def linkMatches (title content_text : String) (l : Link) : Bool :=
  containsSub (lowerStr content_text) (lowerStr l.text) || containsSub title l.text

/-- The Event built from one Section with the loop body of `scrape_year`. -/
def eventOfSection (year : Nat) (links : List Link) (s : Section) : Event :=
  let content_text := joinSpace s.content
  { title := s.title
    date := extract_dates content_text year
    categories := categorize_content (s.title ++ " " ++ content_text)
    description :=
      if 300 < pyLen content_text then pyTake 300 content_text ++ "..." else content_text
    links := links.filter (linkMatches s.title content_text) }

/-- Translation of the `for section in sections` loop of `scrape_year`:
Sections with empty content are skipped (`if section['content']:`). -/
def buildEvents (year : Nat) (links : List Link) : List Section → List Event
  | [] => []
  | s :: rest =>
    if s.content.isEmpty then buildEvents year links rest
    else eventOfSection year links s :: buildEvents year links rest

/-! ### Link Verifier: `verify_link` and the capped verification loop -/

/-- Outcome of the `requests.head` probe, abstracted: either a response
with a status code and final URL, or a raised `RequestException` with its
message. -/
inductive ProbeResult where
  | success (status : Nat) (final_url : String)
  | failure (error : String)
deriving DecidableEq

/-- A LinkVerification record; absent dictionary keys are `none`. -/
structure LinkVerification where
  url : String
  status : Option Nat
  valid : Bool
  final_url : Option String
  error : Option String
deriving DecidableEq

/-- Translation of `verify_link`, with the network probe passed in. -/
def verify_link (url : String) (probe : String → ProbeResult) : LinkVerification :=
  match probe url with
  | ProbeResult.success status final =>
    { url := url, status := some status, valid := status < 400,
      final_url := if final ≠ url then some final else none, error := none }
  | ProbeResult.failure e =>
    { url := url, status := none, valid := false, final_url := none, error := some e }

/-- The verification loop of `scrape_year`:
`unique_urls = list(set(link['url'] for link in links))` followed by
`for url in unique_urls[:50]`.  Python's `set` iteration order is
unspecified; de-duplication is modelled with `List.dedup`. -/
def verifyLinks (probe : String → ProbeResult) (links : List Link) : List LinkVerification :=
  let unique_urls := (links.map Link.url).dedup
  (unique_urls.take 50).map fun u => verify_link u probe

/-- The `link_verification` field of the year result:
`link_verification if verify_links else None`. -/
def linkVerificationField (verify_links : Bool) (probe : String → ProbeResult)
    (links : List Link) : Option (List LinkVerification) :=
  if verify_links then some (verifyLinks probe links) else none

/-! ### Orchestrator: `get_url_for_year`, the fetch gate of `scrape_year`
and the per-year loop of `main` -/

/-- Translation of `URL_PATTERNS` together with `get_url_for_year`'s
first-guess slug for unknown years. -/
def get_url_for_year (year : Nat) : String :=
  if year = 2023 then "https://simonwillison.net/2023/Dec/31/ai-in-2023/"
  else if year = 2024 then "https://simonwillison.net/2024/Dec/31/llms-in-2024/"
  else if year = 2025 then "https://simonwillison.net/2025/Dec/31/the-year-in-llms/"
  else "https://simonwillison.net/" ++ toString year ++ "/Dec/31/the-year-in-llms/"

/-- Payload of a successful scrape, abstracted to the fields the summary
reads.  Parsing and event construction are handled by the pure functions
above; here only the control flow of `scrape_year`/`main` is modelled. -/
structure YearData where
  events : List Event
  all_links : List Link
deriving DecidableEq

/-- The fetch gate of `scrape_year` (`html = fetch_page(url); if not
html: return None`), with `fetch_page` — a `requests.get` wrapper that
returns `None` on any `RequestException` — abstracted as a parameter, and
the rest of the body abstracted as `build`. -/
def scrape_year_run (fetch : String → Option String) (build : Nat → String → YearData)
    (year : Nat) : Option YearData :=
  match fetch (get_url_for_year year) with
  | none => none
  | some html => some (build year html)

/-- Per-year output file name `year_in_llms_<year>.json`. -/
def yearFileName (year : Nat) : String := "year_in_llms_" ++ toString year ++ ".json"

/-- Observable outcome of one `main` run: the aggregated results mapping,
the individual files written, whether the combined file was written, and
the printed summary rows `(year, event count, link count)`.  The function
is total: the run always terminates normally. -/
structure RunOutput where
  results : List (Nat × YearData)
  filesWritten : List String
  combinedWritten : Bool
  summaryRows : List (Nat × Nat × Nat)
deriving DecidableEq

/-- Translation of the year loop of `main`: each successfully scraped
year is added to `results` and written to its own file; the combined file
is written only when `results` is non-empty; the summary prints one row
per aggregated year. -/
def runMain (fetch : String → Option String) (build : Nat → String → YearData)
    (years : List Nat) : RunOutput :=
  let results := years.filterMap fun y =>
    (scrape_year_run fetch build y).map fun d => (y, d)
  { results := results
    filesWritten := results.map fun p => yearFileName p.1
    combinedWritten := !results.isEmpty
    summaryRows := results.map fun p => (p.1, p.2.events.length, p.2.all_links.length) }

/-! ## Helper lemmas -/

theorem strToList_append (a b : String) : (a ++ b).toList = a.toList ++ b.toList := by
  cases a; cases b; rfl

theorem strEq_of_toList {a b : String} (h : a.toList = b.toList) : a = b := by
  cases a; cases b; exact congrArg String.mk h

theorem condApp (b : Bool) (x : String) {l1 l2 : List String}
    (h : List.Sublist l1 l2) :
    List.Sublist ((if b then [x] else []) ++ l1) (x :: l2) := by
  cases b
  · simpa using h.cons x
  · simpa using h.cons₂ x

theorem condSingle (b : Bool) (x : String) :
    List.Sublist (if b then [x] else []) [x] := by
  cases b <;> simp

theorem categorize_content_eq (text : String) :
    categorize_content text
      = if (categoriesRaw (lowerStr text)).isEmpty then ["concepts"]
        else categoriesRaw (lowerStr text) := rfl

theorem categorize_content_ne_nil (text : String) : categorize_content text ≠ [] := by
  rw [categorize_content_eq]
  split
  · simp
  · simp_all [List.isEmpty_iff]

theorem categoriesRaw_sublist (textLower : String) :
    List.Sublist (categoriesRaw textLower) categoryOrder :=
  condApp _ _ (condApp _ _ (condApp _ _ (condApp _ _ (condApp _ _
    (condSingle _ _)))))

theorem categorize_content_sublist (text : String) :
    List.Sublist (categorize_content text) categoryOrder := by
  rw [categorize_content_eq]
  split
  · simp [categoryOrder]
  · exact categoriesRaw_sublist _

theorem anyKw_eq_false {textLower : String} {kws : List String}
    (h : ∀ kw ∈ kws, containsSub textLower kw = false) :
    anyKw textLower kws = false := by
  unfold anyKw
  simpa [List.any_eq_false] using h

theorem categorize_content_default {text : String}
    (h : ∀ kw ∈ all_keywords, containsSub (lowerStr text) kw = false) :
    categorize_content text = ["concepts"] := by
  have hm : anyKw (lowerStr text) model_keywords = false :=
    anyKw_eq_false fun kw hk => h kw (by simp [all_keywords, hk])
  have ht : anyKw (lowerStr text) tool_keywords = false :=
    anyKw_eq_false fun kw hk => h kw (by simp [all_keywords, hk])
  have hc : anyKw (lowerStr text) concept_keywords = false :=
    anyKw_eq_false fun kw hk => h kw (by simp [all_keywords, hk])
  have hp : anyKw (lowerStr text) pricing_keywords = false :=
    anyKw_eq_false fun kw hk => h kw (by simp [all_keywords, hk])
  have hco : anyKw (lowerStr text) company_keywords = false :=
    anyKw_eq_false fun kw hk => h kw (by simp [all_keywords, hk])
  have hr : anyKw (lowerStr text) research_keywords = false :=
    anyKw_eq_false fun kw hk => h kw (by simp [all_keywords, hk])
  rw [categorize_content_eq]
  simp [categoriesRaw, hm, ht, hc, hp, hco, hr]

theorem buildEvents_eq (year : Nat) (links : List Link) (secs : List Section) :
    buildEvents year links secs
      = (secs.filter fun s => !s.content.isEmpty).map (eventOfSection year links) := by
  induction secs with
  | nil => rfl
  | cons s rest ih =>
    cases h : s.content.isEmpty <;> simp [buildEvents, h, ih, List.filter_cons]

theorem mem_buildEvents {year : Nat} {links : List Link} {secs : List Section}
    {e : Event} (h : e ∈ buildEvents year links secs) :
    ∃ s ∈ secs, s.content ≠ [] ∧ e = eventOfSection year links s := by
  rw [buildEvents_eq] at h
  obtain ⟨s, hs, rfl⟩ := List.mem_map.mp h
  obtain ⟨hmem, hne⟩ := List.mem_filter.mp hs
  exact ⟨s, hmem, by simpa [List.isEmpty_iff] using hne, rfl⟩

theorem eventOfSection_categories (year : Nat) (links : List Link) (s : Section) :
    (eventOfSection year links s).categories
      = categorize_content (s.title ++ " " ++ joinSpace s.content) := rfl

/-! ## Claims -/

/-- C1: for every input text, `categorize_content` returns a non-empty
list that is a subsequence of the fixed evaluation order
`[models, tools, concepts, pricing, companies, research]`, returns
exactly `["concepts"]` when no keyword substring occurs in the lowered
text, and consequently every Event built by the section loop has a
non-empty categories list. -/
theorem C1_categorizer (text : String) :
    categorize_content text ≠ [] ∧
    List.Sublist (categorize_content text) categoryOrder ∧
    ((∀ kw ∈ all_keywords, containsSub (lowerStr text) kw = false) →
      categorize_content text = ["concepts"]) ∧
    (∀ (year : Nat) (links : List Link) (sections : List Section) (e : Event),
      e ∈ buildEvents year links sections → e.categories ≠ []) := by
  refine ⟨categorize_content_ne_nil text, categorize_content_sublist text,
    fun h => categorize_content_default h, ?_⟩
  intro year links sections e he
  obtain ⟨s, _, _, rfl⟩ := mem_buildEvents he
  rw [eventOfSection_categories]
  exact categorize_content_ne_nil _

/-- C1 witness: `"the weather was nice"` triggers no keyword predicate and
is categorized as exactly `["concepts"]`; a concrete built Event has
non-empty categories. -/
theorem C1_categorizer_witness :
    categorize_content "the weather was nice" = ["concepts"] ∧
    (eventOfSection 2025 [] ⟨"T", 2, ["hello"]⟩).categories ≠ [] :=
  ⟨(C1_categorizer "the weather was nice").2.2.1 (by decide),
   (C1_categorizer "x").2.2.2 2025 [] [⟨"T", 2, ["hello"]⟩]
     (eventOfSection 2025 [] ⟨"T", 2, ["hello"]⟩) (by decide)⟩

/-- C10: `extract_dates` returns a string on every path: although the
declared Python result type is `str | None`, every branch yields either a
formatted date or the fallback year rendered as a string. -/
theorem C10_extract_dates_total (text : String) (year : Nat) :
    (extract_dates text year).isSome = true := by
  unfold extract_dates
  split
  · rfl
  · dsimp only
    split <;> rfl

/-- C2 counterexample: on the input `"March 2025"` (month followed only by
a four-digit year, no day) with fallback year 2024, the code does not
return `"March 2025"`: the greedy day capture consumes the first two
digits of the year, producing `"March 20, 2024"`. -/
theorem C2_counterexample :
    extract_dates "March 2025" 2024 = some "March 20, 2024" ∧
    extract_dates "March 2025" 2024 ≠ some "March 2025" := by
  exact ⟨by decide, by decide⟩

/-- C3 counterexample: in a document `h2 "A", p "x", h3 "B", p "y",
h2 "C"`, the rank-2 section "A" does NOT extend past the intervening
rank-3 heading: its content is `["x"]`, not `["x", "y"]` as the
equal-or-higher-priority reading of the claim would require. -/
theorem C3_counterexample :
    (extract_headings_and_sections
        [⟨"h2", "A"⟩, ⟨"p", "x"⟩, ⟨"h3", "B"⟩, ⟨"p", "y"⟩, ⟨"h2", "C"⟩]).map
        Section.content = [["x"], ["y"], []] ∧
    (extract_headings_and_sections
        [⟨"h2", "A"⟩, ⟨"p", "x"⟩, ⟨"h3", "B"⟩, ⟨"p", "y"⟩, ⟨"h2", "C"⟩]).map
        Section.content ≠ [["x", "y"], ["y"], []] := by
  exact ⟨by decide, by decide⟩

theorem sectionsSpec_cons (n : Node) (rest : List Node) :
    sectionsSpec (n :: rest)
      = (if isHeading n then
          [{ title := pyStrip n.text, level := tagLevel n.tag,
             content := ((rest.takeWhile fun m => !isHeading m).filter
               fun m => m.tag == "p").map fun m => pyStrip m.text }]
         else []) ++ sectionsSpec rest := by
  unfold sectionsSpec
  rw [List.tails_cons, List.filterMap_cons]
  cases h : isHeading n <;> simp [h]

theorem sectionContent_eq (l : List Node) :
    sectionContent l
      = ((l.takeWhile fun m => !isHeading m).filter fun m => m.tag == "p").map
          fun m => pyStrip m.text := by
  induction l with
  | nil => rfl
  | cons n rest ih =>
    cases h : isHeading n
    · cases hp : n.tag == "p" <;>
        simp [sectionContent, h, hp, ih, List.takeWhile_cons, List.filter_cons]
    · simp [sectionContent, h, List.takeWhile_cons]

/-- C3 amended: the Section Extractor returns one Section per
rank-2-or-3 heading in document order, accumulating the stripped text of
following paragraph siblings until the next heading of rank 2 or 3
regardless of its relative rank — so a rank-2 Section's content stops at
an intervening rank-3 heading instead of extending to the next rank-2
heading. -/
theorem C3_sections_amended (doc : List Node) :
    extract_headings_and_sections doc = sectionsSpec doc := by
  induction doc with
  | nil => rfl
  | cons n rest ih =>
    cases h : isHeading n <;>
      simp [extract_headings_and_sections, sectionsSpec_cons, h, ih,
        sectionContent_eq]

/-- C6: the Event Builder produces exactly one Event per Section with
non-empty content, in section order, and none for empty-content
Sections. -/
theorem C6_events_per_section (year : Nat) (links : List Link) (secs : List Section) :
    buildEvents year links secs
        = (secs.filter fun s => !s.content.isEmpty).map (eventOfSection year links) ∧
    (buildEvents year links secs).length
        = (secs.filter fun s => !s.content.isEmpty).length ∧
    (∀ s : Section, s.content = [] →
      buildEvents year links (s :: secs) = buildEvents year links secs) := by
  refine ⟨buildEvents_eq year links secs, by rw [buildEvents_eq]; simp, ?_⟩
  intro s hs
  simp [buildEvents, hs]

/-- C6 witness: a Section with empty content contributes no Event. -/
theorem C6_events_per_section_witness :
    buildEvents 2025 [] [⟨"E", 2, []⟩, ⟨"T", 2, ["x"]⟩]
      = buildEvents 2025 [] [⟨"T", 2, ["x"]⟩] :=
  (C6_events_per_section 2025 [] [⟨"T", 2, ["x"]⟩]).2.2 ⟨"E", 2, []⟩ rfl

theorem eventOfSection_description (year : Nat) (links : List Link) (s : Section) :
    (eventOfSection year links s).description
      = if 300 < pyLen (joinSpace s.content) then
          pyTake 300 (joinSpace s.content) ++ "..."
        else joinSpace s.content := rfl

theorem eventOfSection_links (year : Nat) (links : List Link) (s : Section) :
    (eventOfSection year links s).links
      = links.filter (linkMatches s.title (joinSpace s.content)) := rfl

theorem pyLen_append (a b : String) : pyLen (a ++ b) = pyLen a + pyLen b := by
  simp [pyLen, strToList_append]

theorem pyLen_pyTake (n : Nat) (s : String) : pyLen (pyTake n s) = min n (pyLen s) := by
  simp [pyLen, pyTake]

/-- C4: the Event description is the joined content unchanged when its
length is at most 300 code points, and otherwise is the first 300 code
points followed by `"..."` — exactly 303 code points ending in `"..."`;
in every case its length is at most 303. -/
theorem C4_description (year : Nat) (links : List Link) (s : Section)
    (h : s.content ≠ []) :
    buildEvents year links [s] = [eventOfSection year links s] ∧
    (pyLen (joinSpace s.content) ≤ 300 →
      (eventOfSection year links s).description = joinSpace s.content) ∧
    (300 < pyLen (joinSpace s.content) →
      (eventOfSection year links s).description
          = pyTake 300 (joinSpace s.content) ++ "..." ∧
        pyLen (eventOfSection year links s).description = 303 ∧
        pyEndsWith (eventOfSection year links s).description "..." = true) ∧
    pyLen (eventOfSection year links s).description ≤ 303 := by
  have hne : s.content.isEmpty = false := by
    cases hc : s.content.isEmpty
    · rfl
    · exact absurd (List.isEmpty_iff.mp hc) h
  refine ⟨by simp [buildEvents, hne], ?_, ?_, ?_⟩
  · intro hle
    rw [eventOfSection_description, if_neg (by omega)]
  · intro hgt
    rw [eventOfSection_description, if_pos hgt]
    refine ⟨rfl, ?_, ?_⟩
    · rw [pyLen_append, pyLen_pyTake]
      have : pyLen ("..." : String) = 3 := rfl
      omega
    · show listStarts _ _ = true
      have hrev : (pyTake 300 (joinSpace s.content) ++ "...").toList.reverse
          = '.' :: '.' :: '.' :: ((joinSpace s.content).toList.take 300).reverse := by
        rw [strToList_append]
        simp [pyTake]
      rw [hrev]
      rfl
  · rw [eventOfSection_description]
    split
    · rw [pyLen_append, pyLen_pyTake]
      have : pyLen ("..." : String) = 3 := rfl
      omega
    · omega

set_option maxRecDepth 8192 in
/-- C4 witness: a Section whose joined content has 350 characters yields a
303-character description ending in `"..."`; a short Section keeps its
content verbatim. -/
theorem C4_description_witness :
    pyLen (eventOfSection 2025 []
        ⟨"T", 2, [String.mk (List.replicate 350 'a')]⟩).description = 303 ∧
    pyEndsWith (eventOfSection 2025 []
        ⟨"T", 2, [String.mk (List.replicate 350 'a')]⟩).description "..." = true ∧
    (eventOfSection 2025 [] ⟨"U", 2, ["short content"]⟩).description
        = joinSpace ["short content"] :=
  ⟨((C4_description 2025 [] ⟨"T", 2, [String.mk (List.replicate 350 'a')]⟩
        (by decide)).2.2.1 (by decide)).2.1,
   ((C4_description 2025 [] ⟨"T", 2, [String.mk (List.replicate 350 'a')]⟩
        (by decide)).2.2.1 (by decide)).2.2,
   (C4_description 2025 [] ⟨"U", 2, ["short content"]⟩ (by decide)).2.1 (by decide)⟩

/-- C5: an Event's links are exactly the ordered subsequence of the
extracted links whose text occurs case-insensitively in the joined
content or case-sensitively in the Section title, in extraction order;
the same link may be attached to the Events of several Sections. -/
theorem C5_event_links (year : Nat) (links : List Link) (s : Section) :
    List.Sublist (eventOfSection year links s).links links ∧
    (∀ l : Link, l ∈ (eventOfSection year links s).links ↔
        l ∈ links ∧ linkMatches s.title (joinSpace s.content) l = true) ∧
    (∀ (s2 : Section) (l : Link), l ∈ links →
        linkMatches s.title (joinSpace s.content) l = true →
        linkMatches s2.title (joinSpace s2.content) l = true →
        l ∈ (eventOfSection year links s).links ∧
          l ∈ (eventOfSection year links s2).links) := by
  refine ⟨?_, ?_, ?_⟩
  · rw [eventOfSection_links]
    exact List.filter_sublist links
  · intro l
    rw [eventOfSection_links]
    exact List.mem_filter
  · intro s2 l hl h1 h2
    rw [eventOfSection_links, eventOfSection_links]
    exact ⟨List.mem_filter.mpr ⟨hl, h1⟩, List.mem_filter.mpr ⟨hl, h2⟩⟩

/-- C5 witness: the link "alpha" matches the content of one Section
case-insensitively and the title of another case-sensitively, and is
attached to both Events. -/
theorem C5_event_links_witness :
    (⟨"alpha", "https://a"⟩ : Link)
        ∈ (eventOfSection 2025 [⟨"alpha", "https://a"⟩]
            ⟨"T", 2, ["saw ALPHA rise"]⟩).links ∧
    (⟨"alpha", "https://a"⟩ : Link)
        ∈ (eventOfSection 2025 [⟨"alpha", "https://a"⟩]
            ⟨"the alpha story", 2, ["news"]⟩).links :=
  (C5_event_links 2025 [⟨"alpha", "https://a"⟩] ⟨"T", 2, ["saw ALPHA rise"]⟩).2.2
    ⟨"the alpha story", 2, ["news"]⟩ ⟨"alpha", "https://a"⟩
    (by decide) (by decide) (by decide)

theorem toList_mk (l : List Char) : (String.mk l).toList = l := rfl

theorem digit_not_ws {c : Char} (h : c.isDigit = true) : isPyWs c = false := by
  cases hw : isPyWs c
  · rfl
  · exfalso
    unfold isPyWs at hw
    simp only [Bool.or_eq_true, beq_iff_eq] at hw
    rcases hw with ((((h1 | h1) | h1) | h1) | h1) | h1 <;> subst h1 <;>
      exact absurd h (by decide)

theorem digit_beq_comma {c : Char} (h : c.isDigit = true) : (c == ',') = false := by
  cases hc : c == ','
  · rfl
  · exfalso
    rw [beq_iff_eq] at hc
    subst hc
    exact absurd h (by decide)

theorem dropWhile_ws_space (l : List Char) :
    List.dropWhile isPyWs (' ' :: l) = List.dropWhile isPyWs l := by
  rw [List.dropWhile_cons, if_pos (show isPyWs ' ' = true from rfl)]

theorem dropWhile_ws_comma (l : List Char) :
    List.dropWhile isPyWs (',' :: l) = ',' :: l := by
  rw [List.dropWhile_cons, if_neg (show ¬ isPyWs ',' = true from by decide)]

theorem dropWhile_ws_digit {c : Char} (h : c.isDigit = true) (l : List Char) :
    List.dropWhile isPyWs (c :: l) = c :: l := by
  rw [List.dropWhile_cons, if_neg (by simp [digit_not_ws h])]

theorem monthAt_eq_none {l : List Char}
    (h : ∀ m ∈ monthNames, ciStarts m.toList l = false) : monthAt l = none := by
  unfold monthAt
  rw [List.findSome?_eq_none_iff]
  intro m hm
  have hx : ciStarts m.data l = false := h m hm
  simp [hx]

theorem findMonthFrom_eq_none {l : List Char}
    (h : ∀ m ∈ monthNames, ciOccursL m.toList l = false) : findMonthFrom l = none := by
  induction l with
  | nil => rfl
  | cons c cs ih =>
    have hAt : ∀ m ∈ monthNames, ciStarts m.toList (c :: cs) = false := by
      intro m hm
      have hx := h m hm
      simp only [ciOccursL, Bool.or_eq_false_iff] at hx
      exact hx.1
    have hTail : ∀ m ∈ monthNames, ciOccursL m.toList cs = false := by
      intro m hm
      have hx := h m hm
      simp only [ciOccursL, Bool.or_eq_false_iff] at hx
      exact hx.2
    simp [findMonthFrom, monthAt_eq_none hAt, ih hTail]

theorem extract_dates_no_month {text : String} {year : Nat}
    (h : ∀ m ∈ monthNames, ciOccursL m.toList text.toList = false) :
    extract_dates text year = some (toString year) := by
  unfold extract_dates
  rw [findMonthFrom_eq_none h]

theorem march_day_capture (fallback : Nat) (c1 c2 c3 c4 : Char)
    (h1 : c1.isDigit = true) (h2 : c2.isDigit = true)
    (h3 : c3.isDigit = true) (h4 : c4.isDigit = true) :
    extract_dates ("March " ++ String.mk [c1, c2, c3, c4]) fallback
      = some ("March " ++ String.mk [c1, c2] ++ ", " ++ toString fallback) := by
  have htl : ("March " ++ String.mk [c1, c2, c3, c4]).toList
      = 'M' :: 'a' :: 'r' :: 'c' :: 'h' :: ' ' :: c1 :: c2 :: c3 :: c4 :: [] := by
    rw [strToList_append]; rfl
  unfold extract_dates
  rw [htl]
  rw [show findMonthFrom
        ('M' :: 'a' :: 'r' :: 'c' :: 'h' :: ' ' :: c1 :: c2 :: c3 :: c4 :: [])
      = some (['M', 'a', 'r', 'c', 'h'], ' ' :: c1 :: c2 :: c3 :: c4 :: []) from rfl]
  dsimp only
  rw [dropWhile_ws_space, dropWhile_ws_digit h1]
  rw [show dayParse (c1 :: c2 :: c3 :: c4 :: []) = (some [c1, c2], [c3, c4]) from by
    simp [dayParse, h1, h2]]
  dsimp only
  rw [show dropComma [c3, c4] = [c3, c4] from by simp [dropComma, digit_beq_comma h3]]
  rw [dropWhile_ws_digit h3]
  rw [show yearParse [c3, c4] = none from rfl]
  dsimp only
  refine congrArg some (strEq_of_toList ?_)
  simp only [strToList_append, toList_mk]
  rfl

theorem march_comma_year (fallback : Nat) (c1 c2 c3 c4 : Char)
    (h1 : c1.isDigit = true) (h2 : c2.isDigit = true)
    (h3 : c3.isDigit = true) (h4 : c4.isDigit = true) :
    extract_dates ("March, " ++ String.mk [c1, c2, c3, c4]) fallback
      = some ("March " ++ String.mk [c1, c2, c3, c4]) := by
  have htl : ("March, " ++ String.mk [c1, c2, c3, c4]).toList
      = 'M' :: 'a' :: 'r' :: 'c' :: 'h' :: ',' :: ' ' :: c1 :: c2 :: c3 :: c4 :: [] := by
    rw [strToList_append]; rfl
  unfold extract_dates
  rw [htl]
  rw [show findMonthFrom
        ('M' :: 'a' :: 'r' :: 'c' :: 'h' :: ',' :: ' ' :: c1 :: c2 :: c3 :: c4 :: [])
      = some (['M', 'a', 'r', 'c', 'h'], ',' :: ' ' :: c1 :: c2 :: c3 :: c4 :: [])
      from rfl]
  dsimp only
  rw [dropWhile_ws_comma]
  rw [show dayParse (',' :: ' ' :: c1 :: c2 :: c3 :: c4 :: [])
      = (none, ',' :: ' ' :: c1 :: c2 :: c3 :: c4 :: []) from rfl]
  dsimp only
  rw [show dropComma (',' :: ' ' :: c1 :: c2 :: c3 :: c4 :: [])
      = ' ' :: c1 :: c2 :: c3 :: c4 :: [] from rfl]
  rw [dropWhile_ws_space, dropWhile_ws_digit h1]
  rw [show yearParse (c1 :: c2 :: c3 :: c4 :: [])
      = some [c1, c2, c3, c4] from by simp [yearParse, h1, h2, h3, h4]]
  dsimp only
  refine congrArg some (strEq_of_toList ?_)
  simp only [strToList_append, toList_mk]
  rfl

/-- C2 amended: `extract_dates` returns the fallback year as a string
when no month name occurs in the text, and `"<Month> <Day>, <Year>"` or
`"<Month> <Year>"` according to the captured groups — but when a month
name is followed directly by a four-digit year with no day, the greedy
day capture consumes the first two digits of the year, producing
`"<Month> <first two digits>, <fallback year>"`; the captured-year form
`"<Month> <Year>"` arises only when the year is not in day-capturable
position, e.g. separated by a comma. -/
theorem C2_date_amended (fallback : Nat) :
    (∀ text : String, (∀ m ∈ monthNames, ciOccursL m.toList text.toList = false) →
        extract_dates text fallback = some (toString fallback)) ∧
    (∀ c1 c2 c3 c4 : Char, c1.isDigit = true → c2.isDigit = true →
        c3.isDigit = true → c4.isDigit = true →
        extract_dates ("March " ++ String.mk [c1, c2, c3, c4]) fallback
          = some ("March " ++ String.mk [c1, c2] ++ ", " ++ toString fallback)) ∧
    (∀ c1 c2 c3 c4 : Char, c1.isDigit = true → c2.isDigit = true →
        c3.isDigit = true → c4.isDigit = true →
        extract_dates ("March, " ++ String.mk [c1, c2, c3, c4]) fallback
          = some ("March " ++ String.mk [c1, c2, c3, c4])) ∧
    extract_dates "Released on March 15, 2025 to wide acclaim" fallback
      = some "March 15, 2025" :=
  ⟨fun _ h => extract_dates_no_month h,
   fun c1 c2 c3 c4 h1 h2 h3 h4 => march_day_capture fallback c1 c2 c3 c4 h1 h2 h3 h4,
   fun c1 c2 c3 c4 h1 h2 h3 h4 => march_comma_year fallback c1 c2 c3 c4 h1 h2 h3 h4,
   rfl⟩

/-- C2 witness: concrete digits instantiate the two parameterized
families, and a month-free text yields the bare fallback year. -/
theorem C2_date_amended_witness :
    extract_dates ("March " ++ String.mk ['2', '0', '2', '5']) 2024
        = some ("March " ++ String.mk ['2', '0'] ++ ", " ++ toString 2024) ∧
    extract_dates ("March, " ++ String.mk ['2', '0', '2', '5']) 2024
        = some ("March " ++ String.mk ['2', '0', '2', '5']) ∧
    extract_dates "no date mentioned here" 2026 = some (toString 2026) :=
  ⟨(C2_date_amended 2024).2.1 '2' '0' '2' '5'
      (by decide) (by decide) (by decide) (by decide),
   (C2_date_amended 2024).2.2.1 '2' '0' '2' '5'
      (by decide) (by decide) (by decide) (by decide),
   (C2_date_amended 2026).1 "no date mentioned here" (by decide)⟩

theorem strAppend_assoc (a b c : String) : (a ++ b) ++ c = a ++ (b ++ c) := by
  apply strEq_of_toList
  simp [strToList_append]

theorem listStarts_eq_append {p l : List Char} (h : listStarts p l = true) :
    ∃ t, l = p ++ t := by
  induction p generalizing l with
  | nil => exact ⟨l, rfl⟩
  | cons a ps ih =>
    cases l with
    | nil => exact absurd h (by simp [listStarts])
    | cons c cs =>
      rw [listStarts, Bool.and_eq_true, beq_iff_eq] at h
      obtain ⟨t, rfl⟩ := ih h.2
      exact ⟨t, by simp [h.1]⟩

theorem splitScheme_mk_http (l : List Char) :
    splitScheme (String.mk ('h' :: 't' :: 't' :: 'p' :: ':' :: l))
      = some ("http", String.mk l) := rfl

theorem splitScheme_mk_https (l : List Char) :
    splitScheme (String.mk ('h' :: 't' :: 't' :: 'p' :: 's' :: ':' :: l))
      = some ("https", String.mk l) := rfl

theorem hasScheme_mk_http (l : List Char) :
    hasScheme (String.mk ('h' :: 't' :: 't' :: 'p' :: ':' :: l)) = true := by
  unfold hasScheme
  rw [splitScheme_mk_http]
  rfl

theorem hasScheme_mk_https (l : List Char) :
    hasScheme (String.mk ('h' :: 't' :: 't' :: 'p' :: 's' :: ':' :: l)) = true := by
  unfold hasScheme
  rw [splitScheme_mk_https]
  rfl

theorem hasScheme_http_colon (t : String) :
    hasScheme ("http" ++ (":" ++ t)) = true := by
  cases t with
  | mk d => exact hasScheme_mk_http d

theorem hasScheme_https_colon (t : String) :
    hasScheme ("https" ++ (":" ++ t)) = true := by
  cases t with
  | mk d => exact hasScheme_mk_https d

theorem hasScheme_of_split {u : String} {s r : String}
    (h : splitScheme u = some (s, r)) : hasScheme u = true := by
  unfold hasScheme
  rw [h]
  rfl

theorem urlparse_scheme_of_split {url d s r : String}
    (h : splitScheme url = some (s, r)) : (urlparse url d).scheme = s := by
  unfold urlparse
  rw [h]

theorem urlparse_scheme_of_none {url d : String}
    (h : splitScheme url = none) : (urlparse url d).scheme = d := by
  unfold urlparse
  rw [h]

theorem urlunsplit_hasScheme {p : UrlParts}
    (h : p.scheme = "http" ∨ p.scheme = "https") :
    hasScheme (urlunsplit p) = true := by
  cases p with
  | mk s n pa q f =>
    unfold urlunsplit
    dsimp only
    rcases h with h | h
    · replace h : s = "http" := h
      subst h
      simp only [if_pos (show ("http" : String) ≠ "" from by decide)]
      split <;> split <;>
        (simp only [strAppend_assoc]; exact hasScheme_http_colon _)
    · replace h : s = "https" := h
      subst h
      simp only [if_pos (show ("https" : String) ≠ "" from by decide)]
      split <;> split <;>
        (simp only [strAppend_assoc]; exact hasScheme_https_colon _)

theorem base_http_ne_empty (r : String) : ("http://" ++ r) ≠ "" := by
  cases r with
  | mk d =>
    intro h0
    have h1 : ('h' :: 't' :: 't' :: 'p' :: ':' :: '/' :: '/' :: d) = ([] : List Char) :=
      congrArg String.data h0
    exact absurd h1 (by simp)

theorem base_https_ne_empty (r : String) : ("https://" ++ r) ≠ "" := by
  cases r with
  | mk d =>
    intro h0
    have h1 : ('h' :: 't' :: 't' :: 'p' :: 's' :: ':' :: '/' :: '/' :: d) = ([] : List Char) :=
      congrArg String.data h0
    exact absurd h1 (by simp)

theorem splitScheme_base_http (r : String) :
    splitScheme ("http://" ++ r) = some ("http", String.mk ('/' :: '/' :: r.toList)) := by
  cases r with
  | mk d => exact splitScheme_mk_http ('/' :: '/' :: d)

theorem splitScheme_base_https (r : String) :
    splitScheme ("https://" ++ r) = some ("https", String.mk ('/' :: '/' :: r.toList)) := by
  cases r with
  | mk d => exact splitScheme_mk_https ('/' :: '/' :: d)

theorem urljoin_hasScheme {base : String} (u : String)
    (hb : (∃ r : String, base = "http://" ++ r) ∨ ∃ r : String, base = "https://" ++ r) :
    hasScheme (urljoin base u) = true := by
  have hbase : ∃ sch : String, (sch = "http" ∨ sch = "https") ∧
      base ≠ "" ∧ (urlparse base "").scheme = sch ∧
      uses_relative.contains sch = true := by
    rcases hb with ⟨r, rfl⟩ | ⟨r, rfl⟩
    · exact ⟨"http", Or.inl rfl, base_http_ne_empty r,
        urlparse_scheme_of_split (splitScheme_base_http r), by decide⟩
    · exact ⟨"https", Or.inr rfl, base_https_ne_empty r,
        urlparse_scheme_of_split (splitScheme_base_https r), by decide⟩
  obtain ⟨sch, hor, hne, hbs, hrel⟩ := hbase
  unfold urljoin
  rw [if_neg hne]
  by_cases hu : u = ""
  · rw [if_pos hu]
    rcases hb with ⟨r, rfl⟩ | ⟨r, rfl⟩
    · cases r with
      | mk d => exact hasScheme_mk_http ('/' :: '/' :: d)
    · cases r with
      | mk d => exact hasScheme_mk_https ('/' :: '/' :: d)
  · rw [if_neg hu]
    dsimp only
    cases hsu : splitScheme u with
    | none =>
      have hus : (urlparse u (urlparse base "").scheme).scheme = sch := by
        rw [urlparse_scheme_of_none hsu, hbs]
      have hcond : ¬ ((urlparse u (urlparse base "").scheme).scheme
            ≠ (urlparse base "").scheme ∨
          uses_relative.contains (urlparse u (urlparse base "").scheme).scheme
            = false) := by
        rw [hus, hbs]
        intro hx
        rcases hx with hx | hx
        · exact hx rfl
        · rw [hrel] at hx
          simp at hx
      rw [if_neg hcond]
      split
      · exact urlunsplit_hasScheme (by rw [hus]; exact hor)
      · split <;> exact urlunsplit_hasScheme (by simpa [hus] using hor)
    | some p =>
      obtain ⟨s, rest⟩ := p
      have hus : (urlparse u (urlparse base "").scheme).scheme = s :=
        urlparse_scheme_of_split hsu
      by_cases hss : s = sch
      · subst hss
        have hcond : ¬ ((urlparse u (urlparse base "").scheme).scheme
              ≠ (urlparse base "").scheme ∨
            uses_relative.contains (urlparse u (urlparse base "").scheme).scheme
              = false) := by
          rw [hus, hbs]
          intro hx
          rcases hx with hx | hx
          · exact hx rfl
          · rw [hrel] at hx
            simp at hx
        rw [if_neg hcond]
        split
        · exact urlunsplit_hasScheme (by rw [hus]; exact hor)
        · split <;> exact urlunsplit_hasScheme (by simpa [hus] using hor)
      · rw [if_pos (show (urlparse u (urlparse base "").scheme).scheme
              ≠ (urlparse base "").scheme ∨
            uses_relative.contains (urlparse u (urlparse base "").scheme).scheme
              = false from by
          rw [hus, hbs]
          exact Or.inl hss)]
        exact hasScheme_of_split hsu

theorem pyStartsWith_http_hasScheme {href : String}
    (h : pyStartsWith href "http://" = true) : hasScheme href = true := by
  obtain ⟨t, ht⟩ := listStarts_eq_append h
  cases href with
  | mk d =>
    have hd : d = 'h' :: 't' :: 't' :: 'p' :: ':' :: '/' :: '/' :: t := ht
    subst hd
    exact hasScheme_mk_http ('/' :: '/' :: t)

theorem pyStartsWith_https_hasScheme {href : String}
    (h : pyStartsWith href "https://" = true) : hasScheme href = true := by
  obtain ⟨t, ht⟩ := listStarts_eq_append h
  cases href with
  | mk d =>
    have hd : d = 'h' :: 't' :: 't' :: 'p' :: 's' :: ':' :: '/' :: '/' :: t := ht
    subst hd
    exact hasScheme_mk_https ('/' :: '/' :: t)

theorem resolveHref_hasScheme {base_url : String} (href : String)
    (hb : ∃ r : String, base_url = "http://" ++ r ∨ base_url = "https://" ++ r) :
    hasScheme (resolveHref base_url href) = true := by
  obtain ⟨r, hr⟩ := hb
  unfold resolveHref
  cases hc : (pyStartsWith href "http://" || pyStartsWith href "https://") with
  | false =>
    rw [if_neg (by simp [hc])]
    refine urljoin_hasScheme href ?_
    rcases hr with hr | hr
    · exact Or.inl ⟨r, hr⟩
    · exact Or.inr ⟨r, hr⟩
  | true =>
    rw [if_pos rfl]
    rw [Bool.or_eq_true] at hc
    rcases hc with h | h
    · exact pyStartsWith_http_hasScheme h
    · exact pyStartsWith_https_hasScheme h

theorem extract_links_eq (anchors : List Anchor) (base_url : String) :
    extract_links anchors base_url
      = (anchors.filter fun a =>
            !(pyStrip a.text).isEmpty && !(resolveHref base_url a.href).isEmpty).map
          fun a => { text := pyStrip a.text, url := resolveHref base_url a.href } := by
  induction anchors with
  | nil => rfl
  | cons a rest ih =>
    cases h : !(pyStrip a.text).isEmpty && !(resolveHref base_url a.href).isEmpty <;>
      simp [extract_links, h, ih, List.filter_cons]

theorem mem_extract_links {anchors : List Anchor} {base_url : String} {l : Link}
    (h : l ∈ extract_links anchors base_url) :
    ∃ a ∈ anchors, l = { text := pyStrip a.text, url := resolveHref base_url a.href } := by
  rw [extract_links_eq] at h
  obtain ⟨a, ha, rfl⟩ := List.mem_map.mp h
  exact ⟨a, (List.mem_filter.mp ha).1, rfl⟩

/-- C7: the Link Extractor returns the anchors in document order as a
filter-and-map over the anchor list; anchors whose stripped visible text
is empty are excluded; absolute `http(s)` targets are kept unchanged;
`/foo` against `https://example.com/2025/post/` resolves to
`https://example.com/foo`; and against an absolute `http(s)` page URL,
every returned Link's url carries a URL scheme. -/
theorem C7_link_extractor (anchors : List Anchor) (base_url : String) :
    extract_links anchors base_url
        = (anchors.filter fun a =>
              !(pyStrip a.text).isEmpty && !(resolveHref base_url a.href).isEmpty).map
            (fun a => { text := pyStrip a.text, url := resolveHref base_url a.href }) ∧
    urljoin "https://example.com/2025/post/" "/foo" = "https://example.com/foo" ∧
    (∀ a : Anchor, pyStrip a.text = "" →
        extract_links (a :: anchors) base_url = extract_links anchors base_url) ∧
    (∀ a : Anchor,
        (pyStartsWith a.href "http://" || pyStartsWith a.href "https://") = true →
        resolveHref base_url a.href = a.href) ∧
    ((∃ r : String, base_url = "http://" ++ r ∨ base_url = "https://" ++ r) →
      ∀ l ∈ extract_links anchors base_url, hasScheme l.url = true) := by
  refine ⟨extract_links_eq anchors base_url, by decide, ?_, ?_, ?_⟩
  · intro a h
    have he : ("" : String).isEmpty = true := rfl
    simp [extract_links, h, he]
  · intro a h
    unfold resolveHref
    rw [if_pos h]
  · intro hb l hl
    obtain ⟨a, _, rfl⟩ := mem_extract_links hl
    exact resolveHref_hasScheme a.href hb

/-- C7 witness: a relative anchor `/foo` with padded text on the real
post URL yields one Link with stripped text and an absolute resolved
URL. -/
theorem C7_link_extractor_witness :
    extract_links [⟨"/foo", " Foo "⟩] "https://example.com/2025/post/"
        = [{ text := "Foo", url := "https://example.com/foo" }] ∧
    hasScheme ("https://example.com/foo") = true := by
  constructor
  · decide
  · exact (C7_link_extractor [⟨"/foo", " Foo "⟩]
        "https://example.com/2025/post/").2.2.2.2
      ⟨"example.com/2025/post/", Or.inr rfl⟩
      ⟨"Foo", "https://example.com/foo"⟩ (by decide)

/-- C8: when verification is requested, at most 50 de-duplicated URLs
are probed (each one coming from the extracted links), each record is
valid exactly when the probed status code is below 400, and a transport
failure yields a record with no status, `valid = false` and the error
description. -/
theorem C8_link_verification (probe : String → ProbeResult) (links : List Link) :
    (verifyLinks probe links).length ≤ 50 ∧
    ((links.map Link.url).dedup.take 50).Nodup ∧
    verifyLinks probe links
        = ((links.map Link.url).dedup.take 50).map (fun u => verify_link u probe) ∧
    (∀ u ∈ (links.map Link.url).dedup.take 50, u ∈ links.map Link.url) ∧
    (∀ (u : String) (st : Nat) (f : String),
        probe u = ProbeResult.success st f →
        (verify_link u probe).status = some st ∧
          ((verify_link u probe).valid = true ↔ st < 400)) ∧
    (∀ u e : String, probe u = ProbeResult.failure e →
        verify_link u probe
          = { url := u, status := none, valid := false, final_url := none,
              error := some e }) ∧
    linkVerificationField true probe links = some (verifyLinks probe links) ∧
    linkVerificationField false probe links = none := by
  refine ⟨?_, ?_, rfl, ?_, ?_, ?_, rfl, rfl⟩
  · show (((links.map Link.url).dedup.take 50).map fun u => verify_link u probe).length ≤ 50
    rw [List.length_map]
    exact List.length_take_le 50 _
  · exact (List.nodup_dedup _).sublist (List.take_sublist _ _)
  · intro u hu
    exact List.mem_dedup.mp (List.take_subset _ _ hu)
  · intro u st f h
    unfold verify_link
    rw [h]
    exact ⟨rfl, by simp⟩
  · intro u e h
    unfold verify_link
    rw [h]

/-- C8 witness: a concrete probe answering 200 on one URL and a transport
error elsewhere produces the corresponding records. -/
theorem C8_link_verification_witness :
    (verify_link "https://a"
        (fun u => if u = "https://a" then ProbeResult.success 200 "https://a"
                  else ProbeResult.failure "boom")).valid = true ∧
    verify_link "https://b"
        (fun u => if u = "https://a" then ProbeResult.success 200 "https://a"
                  else ProbeResult.failure "boom")
      = { url := "https://b", status := none, valid := false, final_url := none,
          error := some "boom" } :=
  ⟨((C8_link_verification
        (fun u => if u = "https://a" then ProbeResult.success 200 "https://a"
                  else ProbeResult.failure "boom") []).2.2.2.2.1
      "https://a" 200 "https://a" (by decide)).2.mpr (by decide),
   (C8_link_verification
        (fun u => if u = "https://a" then ProbeResult.success 200 "https://a"
                  else ProbeResult.failure "boom") []).2.2.2.2.2.1
      "https://b" "boom" (by decide)⟩

theorem runMain_results (fetch : String → Option String)
    (build : Nat → String → YearData) (years : List Nat) :
    (runMain fetch build years).results
      = years.filterMap fun y =>
          (scrape_year_run fetch build y).map fun d => (y, d) := rfl

theorem results_fst (fetch : String → Option String)
    (build : Nat → String → YearData) (years : List Nat) :
    (runMain fetch build years).results.map Prod.fst
      = years.filter fun y => (fetch (get_url_for_year y)).isSome := by
  rw [runMain_results]
  induction years with
  | nil => rfl
  | cons y ys ih =>
    have hstep : scrape_year_run fetch build y
        = (fetch (get_url_for_year y)).map (build y) := by
      unfold scrape_year_run
      cases fetch (get_url_for_year y) <;> rfl
    cases hf : fetch (get_url_for_year y) <;>
      simp [List.filterMap_cons, hstep, hf, ih, List.filter_cons]

/-- C9: a year whose fetch returns nothing is skipped — it contributes no
entry to the aggregated results and no per-year output file — and when
every requested year fails the run still returns normally with empty
results, no files, no combined file and an empty summary. -/
theorem C9_orchestrator (fetch : String → Option String)
    (build : Nat → String → YearData) (years : List Nat) :
    (runMain fetch build years).results.map Prod.fst
        = years.filter (fun y => (fetch (get_url_for_year y)).isSome) ∧
    (runMain fetch build years).filesWritten
        = ((runMain fetch build years).results.map Prod.fst).map yearFileName ∧
    (∀ y ∈ years, fetch (get_url_for_year y) = none →
        y ∉ (runMain fetch build years).results.map Prod.fst) ∧
    ((∀ y ∈ years, fetch (get_url_for_year y) = none) →
        runMain fetch build years
          = { results := [], filesWritten := [], combinedWritten := false,
              summaryRows := [] }) := by
  refine ⟨results_fst fetch build years, by simp [List.map_map]; rfl, ?_, ?_⟩
  · intro y hy hf hmem
    rw [results_fst] at hmem
    have := (List.mem_filter.mp hmem).2
    rw [hf] at this
    simp at this
  · intro hall
    have hres : (years.filterMap fun y =>
        (scrape_year_run fetch build y).map fun d => (y, d)) = [] := by
      rw [List.filterMap_eq_nil_iff]
      intro y hy
      unfold scrape_year_run
      rw [hall y hy]
      rfl
    unfold runMain
    rw [hres]
    rfl

/-- C9 witness: with a fetch that always fails, one requested year
produces the empty run output. -/
theorem C9_orchestrator_witness :
    runMain (fun _ => none) (fun _ _ => ⟨[], []⟩) [2024]
      = { results := [], filesWritten := [], combinedWritten := false,
          summaryRows := [] } :=
  (C9_orchestrator (fun _ => none) (fun _ _ => ⟨[], []⟩) [2024]).2.2.2
    (fun _ _ => rfl)

end Scraper
